import Mathlib

/-!
# Verification of the eth-metrics per-epoch pipeline

Shallow embedding, in Lean 4, of the core of the `bilinearlabs/eth-metrics`
repository: the epoch scheduler loop (`metrics/metrics.go`), the fork
polymorphic block accessors and the proposer-tip computation
(`metrics/blockdata.go`), the relay-reward aggregator (`metrics`, the
version whose tests are `relayrewards_test.go`), the validators-file
reader (`pools/pools.go`), and the backfill planner of the `db` package.

Go `uint64` values are represented as `Nat`, with wrap-around written out
explicitly (`% 2 ^ 64`) at the one place the code can underflow.  Go
`*big.Int` values are represented as `Int`.  Fallible Go code (functions
returning `error`, and `log.Fatal` aborts) is represented with
`Except`/`Option`.  Concurrent code (the relay aggregator) is modelled by
its sequential determinization: the claims we settle about it concern the
final aggregate map and the error outcome, both of which are independent
of worker interleaving (sums commute, and any worker error yields the
nil-maps return).
-/

namespace EthMetrics

/-! ## Scheduler loop (`metrics/metrics.go`, `Loop`)

The loop state carried across iterations is the pair
`(prevEpoch, prevBeaconState)`.  A beacon state is modelled by the one
field the loop reads from it: its slot (`prevBeaconState.Slot()`).
The outcome of `ProcessEpoch(epoch, prevState)` is environment-dependent
(it performs HTTP fetches); we abstract it as a function
`processEpoch : Nat → Option Nat → Option Nat` mapping the epoch and the
slot of the beacon state passed in (if any) to `none` (error) or
`some slot'` (the slot of the returned `currentBeaconState`). -/

structure SchedulerState where
  prevEpoch : Nat
  prevBeaconState : Option Nat
  deriving Repr, DecidableEq

/-- The contiguity check at the head of the backfill loop
(`metrics.go` lines 253-263).  Note the source computes
`prevEpoch = uint64(prevSlot) % a.networkParameters.slotsInEpoch` —
a modulo, not a division — and assigns the result to the loop's
`prevEpoch` variable; the cached state is dropped when
`(prevEpoch + 1) != epoch`. -/
def contiguityCheck (slotsInEpoch : Nat) (st : SchedulerState) (epoch : Nat) :
    SchedulerState :=
  match st.prevBeaconState with
  | none => st
  | some prevSlot =>
      let prevEpoch := prevSlot % slotsInEpoch
      if prevEpoch + 1 ≠ epoch then
        { prevEpoch := prevEpoch, prevBeaconState := none }
      else
        { prevEpoch := prevEpoch, prevBeaconState := some prevSlot }

/-- One iteration of the backfill `for _, epoch := range missingEpochs` loop:
the contiguity check, then `ProcessEpoch(epoch, prevBeaconState)`; on error
the iteration only logs and continues, on success `prevBeaconState` is
replaced by the returned state (`prevEpoch` is not touched here). -/
def backfillStep (slotsInEpoch : Nat) (processEpoch : Nat → Option Nat → Option Nat)
    (st : SchedulerState) (epoch : Nat) : SchedulerState :=
  let st1 := contiguityCheck slotsInEpoch st epoch
  match processEpoch epoch st1.prevBeaconState with
  | none => st1
  | some newSlot => { st1 with prevBeaconState := some newSlot }

/-- One full pass of the body of `Loop` from the backfill loop onwards:
process every missing epoch, then `ProcessEpoch(currentEpoch, ...)`
(note: no contiguity check before this final call); on its success
`prevBeaconState ← S_E` and `prevEpoch ← currentEpoch`. -/
def loopPass (slotsInEpoch : Nat) (processEpoch : Nat → Option Nat → Option Nat)
    (st0 : SchedulerState) (missingEpochs : List Nat) (currentEpoch : Nat) :
    SchedulerState :=
  let st := missingEpochs.foldl (backfillStep slotsInEpoch processEpoch) st0
  match processEpoch currentEpoch st.prevBeaconState with
  | none => st
  | some newSlot => { prevEpoch := currentEpoch, prevBeaconState := some newSlot }

/-- The `(epoch, prevBeaconState)` argument pairs handed to `ProcessEpoch`
during the backfill loop of one pass, in order. -/
def backfillInvocations (slotsInEpoch : Nat)
    (processEpoch : Nat → Option Nat → Option Nat)
    (st0 : SchedulerState) (missingEpochs : List Nat) :
    List (Nat × Option Nat) :=
  match missingEpochs with
  | [] => []
  | epoch :: rest =>
      let st1 := contiguityCheck slotsInEpoch st0 epoch
      (epoch, st1.prevBeaconState) ::
        backfillInvocations slotsInEpoch processEpoch
          (backfillStep slotsInEpoch processEpoch st0 epoch) rest

/-- `currentEpoch := uint64(headSlot)/uint64(slotsInEpoch) - 2`
(`metrics.go` line 222), with Go `uint64` wrap-around semantics for the
subtraction. -/
def currentEpochOf (headSlot slotsInEpoch : Nat) : Nat :=
  (headSlot / slotsInEpoch + 2 ^ 64 - 2) % 2 ^ 64

/-! ## Claim C1 — contiguity check in the backfill loop -/

/-- The `ProcessEpoch` environment used in the C1/C8 scenarios:
every invocation fails. -/
def allFailEnv : Nat → Option Nat → Option Nat := fun _ _ => none

/-- **C1, failing input.**  With `slotsInEpoch = 32`, a cached beacon state at
slot 65 — whose epoch is `65 / 32 = 2` — and backfill epoch `E = 2`, the
scheduler's check computes `65 % 32 + 1 = 2 = E` and therefore KEEPS the
cached state: `ProcessEpoch` (and hence the differ) is invoked with the
pair `(prevState at epoch 2, S_2)`, which is non-adjacent (`2 ≠ E - 1`).
The claim says the state would be discarded whenever
`⌊slot / slotsInEpoch⌋ ≠ E - 1`; the code compares
`slot % slotsInEpoch + 1` with `E` instead. -/
theorem contiguityCheck_keeps_nonadjacent_state :
    backfillInvocations 32 allFailEnv ⟨0, some 65⟩ [2] = [(2, some 65)] ∧
    65 / 32 ≠ 2 - 1 := by
  constructor
  · rfl
  · decide

/-! ## Claim C8 — `prevEpoch` on an all-failure pass -/

/-- **C8, failing input.**  Start a pass with `prevEpoch = 100` and a cached
beacon state at slot 3200 (`slotsInEpoch = 32`), one missing epoch `101`,
head epoch `102`, and an environment in which every `ProcessEpoch` call
fails.  The contiguity check overwrites the loop's `prevEpoch` variable
with `3200 % 32 = 0` before `ProcessEpoch` is ever called, so the pass
ends with `prevEpoch = 0 ≠ 100`: the scheduler does change `prevEpoch`
on an all-failure pass, contradicting the claim. -/
theorem loopPass_advances_prevEpoch_on_failure :
    (loopPass 32 allFailEnv ⟨100, some 3200⟩ [101] 102).prevEpoch = 0 ∧
    (0 : Nat) ≠ 100 := by
  constructor
  · rfl
  · decide

/-! ## Claim C10 — `currentEpoch` underflow -/

/-- **C10.**  `currentEpoch` is computed as
`headSlot / slotsInEpoch - 2` in `uint64` arithmetic with no lower-bound
guard: whenever `headSlot / slotsInEpoch < 2` the subtraction wraps modulo
`2^64`, yielding `headSlot / slotsInEpoch + 2^64 - 2 ≥ 2^64 - 2` — an
astronomically large epoch number — rather than an error. -/
theorem currentEpochOf_wraps_below_two (headSlot slotsInEpoch : Nat)
    (hpos : 0 < slotsInEpoch) (hq : headSlot / slotsInEpoch < 2) :
    currentEpochOf headSlot slotsInEpoch = headSlot / slotsInEpoch + 2 ^ 64 - 2 ∧
    2 ^ 64 - 2 ≤ currentEpochOf headSlot slotsInEpoch := by
  generalize hq' : headSlot / slotsInEpoch = q at hq
  have h2 : q + 2 ^ 64 - 2 < 2 ^ 64 := by omega
  have h1 : currentEpochOf headSlot slotsInEpoch = q + 2 ^ 64 - 2 := by
    unfold currentEpochOf
    rw [hq']
    exact Nat.mod_eq_of_lt h2
  exact ⟨h1, by rw [h1]; omega⟩

/-- Witness for C10: a node reporting head slot 5 with 32 slots per epoch
makes the scheduler target epoch `2^64 - 2`. -/
theorem currentEpochOf_wraps_below_two_witness :
    currentEpochOf 5 32 = 5 / 32 + 2 ^ 64 - 2 ∧
    2 ^ 64 - 2 ≤ currentEpochOf 5 32 :=
  currentEpochOf_wraps_below_two 5 32 (by decide) (by decide)

/-! ## Fork-polymorphic block accessors (`metrics/blockdata.go`)

`spec.VersionedSignedBeaconBlock` is a tagged union over the fork
variants; each accessor branches on the variant.  `capella.Withdrawal`
carries an index, a validator index, an execution address and a gwei
amount.  A raw transaction (`bellatrix.Transaction`) is an opaque byte
string.  `BaseFeePerGas` is stored as 32 little-endian bytes in the
Bellatrix and Capella payloads and as a `uint256` (whose `Bytes32()` is
its 32-byte big-endian form) from Deneb on; we carry the Deneb-family
value directly in its 32-byte big-endian form. -/

structure Withdrawal where
  index : Nat
  validatorIndex : Nat
  address : List Nat
  amount : Nat
  deriving Repr, DecidableEq

/-- The execution-payload fields of a Bellatrix block that the accessors
read (Bellatrix has no withdrawals). -/
structure PayloadBellatrix where
  blockNumber : Nat
  baseFeePerGasLE : List Nat
  gasUsed : Nat
  transactions : List (List Nat)
  deriving Repr, DecidableEq

/-- The execution-payload fields of a Capella block. -/
structure PayloadCapella where
  blockNumber : Nat
  baseFeePerGasLE : List Nat
  gasUsed : Nat
  transactions : List (List Nat)
  withdrawals : List Withdrawal
  deriving Repr, DecidableEq

/-- The execution-payload fields of a Deneb / Electra / Fulu block
(base fee is a `uint256`, carried here as its 32-byte big-endian form). -/
structure PayloadDeneb where
  blockNumber : Nat
  baseFeePerGasBE : List Nat
  gasUsed : Nat
  transactions : List (List Nat)
  withdrawals : List Withdrawal
  deriving Repr, DecidableEq

/-- `spec.VersionedSignedBeaconBlock`, restricted to the variants the
accessors in `blockdata.go` handle; each carries the proposer index of its
message and its execution payload (Altair has none). -/
inductive VersionedSignedBeaconBlock where
  | altair (proposerIndex : Nat)
  | bellatrix (proposerIndex : Nat) (payload : PayloadBellatrix)
  | capella (proposerIndex : Nat) (payload : PayloadCapella)
  | deneb (proposerIndex : Nat) (payload : PayloadDeneb)
  | electra (proposerIndex : Nat) (payload : PayloadDeneb)
  | fulu (proposerIndex : Nat) (payload : PayloadDeneb)
  deriving Repr, DecidableEq

/-- How an accessor can fail.  The Go accessors never return an error
value: when a field is missing they call `log.Fatal`, which aborts the
process — modelled by `fatalLog`.  `unsupportedFork` is the error the
specification describes; it appears nowhere in the source, and the
theorems below show it is never produced. -/
inductive BlockAccessError where
  | fatalLog (msg : String)
  | unsupportedFork (msg : String)
  deriving Repr, DecidableEq

open VersionedSignedBeaconBlock in
/-- `BlockData.GetBlockWithdrawals` (`blockdata.go` lines 209-227):
Altair and Bellatrix yield an EMPTY withdrawal list (no error). -/
def GetBlockWithdrawals (b : VersionedSignedBeaconBlock) :
    Except BlockAccessError (List Withdrawal) :=
  match b with
  | altair _ => .ok []
  | bellatrix _ _ => .ok []
  | capella _ p => .ok p.withdrawals
  | deneb _ p => .ok p.withdrawals
  | electra _ p => .ok p.withdrawals
  | fulu _ p => .ok p.withdrawals

open VersionedSignedBeaconBlock in
/-- `BlockData.GetBlockTransactions` (`blockdata.go` lines 229-247):
Altair yields an EMPTY transaction list (no error). -/
def GetBlockTransactions (b : VersionedSignedBeaconBlock) :
    Except BlockAccessError (List (List Nat)) :=
  match b with
  | altair _ => .ok []
  | bellatrix _ p => .ok p.transactions
  | capella _ p => .ok p.transactions
  | deneb _ p => .ok p.transactions
  | electra _ p => .ok p.transactions
  | fulu _ p => .ok p.transactions

open VersionedSignedBeaconBlock in
/-- `BlockData.GetBlockNumber` (`blockdata.go` lines 249-267):
`log.Fatal("Altair block has no block number")` on Altair. -/
def GetBlockNumber (b : VersionedSignedBeaconBlock) :
    Except BlockAccessError Nat :=
  match b with
  | altair _ => .error (.fatalLog "Altair block has no block number")
  | bellatrix _ p => .ok p.blockNumber
  | capella _ p => .ok p.blockNumber
  | deneb _ p => .ok p.blockNumber
  | electra _ p => .ok p.blockNumber
  | fulu _ p => .ok p.blockNumber

open VersionedSignedBeaconBlock in
/-- `BlockData.GetBaseFeePerGas` (`blockdata.go` lines 269-295): returns
the base fee as 32 big-endian bytes; the Bellatrix/Capella little-endian
arrays are reversed byte by byte, the Deneb-family `uint256` is read via
`Bytes32()` (already big-endian); `log.Fatal` on Altair. -/
def GetBaseFeePerGas (b : VersionedSignedBeaconBlock) :
    Except BlockAccessError (List Nat) :=
  match b with
  | altair _ => .error (.fatalLog "Altair block has no base fee per gas")
  | bellatrix _ p => .ok p.baseFeePerGasLE.reverse
  | capella _ p => .ok p.baseFeePerGasLE.reverse
  | deneb _ p => .ok p.baseFeePerGasBE
  | electra _ p => .ok p.baseFeePerGasBE
  | fulu _ p => .ok p.baseFeePerGasBE

open VersionedSignedBeaconBlock in
/-- `BlockData.GetGasUsed` (`blockdata.go` lines 297-316):
`log.Fatal` on Altair. -/
def GetGasUsed (b : VersionedSignedBeaconBlock) :
    Except BlockAccessError Nat :=
  match b with
  | altair _ => .error (.fatalLog "Altair block has no gas used")
  | bellatrix _ p => .ok p.gasUsed
  | capella _ p => .ok p.gasUsed
  | deneb _ p => .ok p.gasUsed
  | electra _ p => .ok p.gasUsed
  | fulu _ p => .ok p.gasUsed

open VersionedSignedBeaconBlock in
/-- `BlockData.GetProposerIndex` (`blockdata.go` lines 318-336):
defined for every variant. -/
def GetProposerIndex (b : VersionedSignedBeaconBlock) :
    Except BlockAccessError Nat :=
  match b with
  | altair i => .ok i
  | bellatrix i _ => .ok i
  | capella i _ => .ok i
  | deneb i _ => .ok i
  | electra i _ => .ok i
  | fulu i _ => .ok i

/-- Whether a block is the Altair variant. -/
def VersionedSignedBeaconBlock.isAltair : VersionedSignedBeaconBlock → Bool
  | .altair _ => true
  | _ => false

/-! ## Claim C7 — accessor behaviour per fork variant -/

/-- **C7, counterexample.**  On an Altair block — which, as the claim
itself notes, lacks withdrawals and transactions — `GetBlockWithdrawals`
and `GetBlockTransactions` succeed with silently-empty lists instead of
failing with `UnsupportedForkError`. -/
theorem altair_accessors_silently_empty :
    GetBlockWithdrawals (.altair 7) = .ok [] ∧
    GetBlockTransactions (.altair 7) = .ok [] := by
  exact ⟨rfl, rfl⟩

/-- **C7, amended.**  Per-variant behaviour of the six accessors:
`proposerIndex` succeeds on every variant; `blockNumber`, `baseFeePerGas`
and `gasUsed` abort with `log.Fatal` (not an `UnsupportedForkError`) on
Altair and succeed on every other variant; `withdrawals` and
`transactions` never fail, silently yielding an empty list on the
variants that lack the field (Altair for both, Bellatrix for
withdrawals).  No accessor ever produces an `UnsupportedForkError`. -/
theorem blockAccessors_characterization (b : VersionedSignedBeaconBlock) :
    (∃ i, GetProposerIndex b = .ok i) ∧
    (∃ w, GetBlockWithdrawals b = .ok w) ∧
    (∃ t, GetBlockTransactions b = .ok t) ∧
    (∀ i, GetBlockNumber (.altair i)
        = .error (.fatalLog "Altair block has no block number")) ∧
    (∀ i, GetBaseFeePerGas (.altair i)
        = .error (.fatalLog "Altair block has no base fee per gas")) ∧
    (∀ i, GetGasUsed (.altair i)
        = .error (.fatalLog "Altair block has no gas used")) ∧
    (∀ i, GetBlockWithdrawals (.altair i) = .ok []) ∧
    (∀ i, GetBlockTransactions (.altair i) = .ok []) ∧
    (∀ i p, GetBlockWithdrawals (.bellatrix i p) = .ok []) ∧
    (b.isAltair = false →
      (GetBlockNumber b).isOk ∧ (GetBaseFeePerGas b).isOk ∧
        (GetGasUsed b).isOk) ∧
    (∀ m, GetBlockNumber b ≠ .error (.unsupportedFork m) ∧
          GetBaseFeePerGas b ≠ .error (.unsupportedFork m) ∧
          GetGasUsed b ≠ .error (.unsupportedFork m) ∧
          GetBlockWithdrawals b ≠ .error (.unsupportedFork m) ∧
          GetBlockTransactions b ≠ .error (.unsupportedFork m) ∧
          GetProposerIndex b ≠ .error (.unsupportedFork m)) := by
  cases b <;>
    simp [GetProposerIndex, GetBlockWithdrawals, GetBlockTransactions,
      GetBlockNumber, GetBaseFeePerGas, GetGasUsed,
      VersionedSignedBeaconBlock.isAltair, Except.isOk, Except.toBool]

/-- Witness for the amended C7 theorem, instantiated at a concrete
Bellatrix block (the non-Altair hypothesis is discharged by `rfl`). -/
theorem blockAccessors_characterization_witness :
    (GetBlockNumber (.bellatrix 3 ⟨9, List.replicate 32 0, 21000, []⟩)).isOk ∧
    (GetBaseFeePerGas (.bellatrix 3 ⟨9, List.replicate 32 0, 21000, []⟩)).isOk ∧
    (GetGasUsed (.bellatrix 3 ⟨9, List.replicate 32 0, 21000, []⟩)).isOk :=
  (blockAccessors_characterization
    (.bellatrix 3 ⟨9, List.replicate 32 0, 21000, []⟩)).2.2.2.2.2.2.2.2.2.1 rfl

/-! ## Proposer tip (`metrics/blockdata.go`, `GetProposerTip`)

The function decodes each raw transaction of the payload
(`tx.UnmarshalBinary`), fetches its receipt from the execution client, and
sums the per-transaction fees; the burnt base fee of the whole block is
subtracted at the end.  We model the already-decoded transactions (the
fields `GetProposerTip` reads: type, hash, `GasPrice`, `GasTipCap`,
`GasFeeCap`), the receipt fetch as a function from the queried hash to the
receipt the execution client returns, and the execution header by its
`BaseFee` field. -/

structure Transaction where
  typ : Nat
  hash : Nat
  gasPrice : Int
  gasTipCap : Int
  gasFeeCap : Int
  deriving Repr, DecidableEq

structure Receipt where
  txHash : Nat
  gasUsed : Nat
  deriving Repr, DecidableEq

structure Header where
  baseFee : Int
  deriving Repr, DecidableEq

/-- The per-transaction fee of the loop body of `GetProposerTip`
(`blockdata.go` lines 122-160): verify `tx.Hash() == txReceipt.TxHash`,
then switch on the transaction type; types 0 and 1 pay
`gasPrice · gasUsed`; types 2, 3 and 4 pay `usedGasPrice · gasUsed` where
`usedGasPrice = gasFeeCap` if `gasFeeCap > gasTipCap + header.BaseFee`
(that is, the larger of the two), else `gasTipCap + header.BaseFee`;
any other type is a fatal error. -/
def txTipFee (header : Header) (receiptOf : Nat → Receipt)
    (tx : Transaction) : Except String Int :=
  let txReceipt := receiptOf tx.hash
  if tx.hash ≠ txReceipt.txHash then .error "transaction hash mismatch"
  else
    let gasPrice := tx.gasPrice
    let gasUsed : Int := (txReceipt.gasUsed : Int)
    match tx.typ with
    | 0 | 1 => .ok (gasPrice * gasUsed)
    | 2 | 3 | 4 =>
        let tip := tx.gasTipCap + header.baseFee
        let gasFeeCap := tx.gasFeeCap
        let usedGasPrice := if gasFeeCap > tip then gasFeeCap else tip
        .ok (usedGasPrice * gasUsed)
    | _ => .error "unknown transaction type"

/-- The `tips` accumulation loop of `GetProposerTip`: sum the
per-transaction fees, propagating the first error. -/
def sumTips (header : Header) (receiptOf : Nat → Receipt) :
    List Transaction → Int → Except String Int
  | [], tips => .ok tips
  | tx :: rest, tips =>
      match txTipFee header receiptOf tx with
      | .error e => .error e
      | .ok fee => sumTips header receiptOf rest (tips + fee)

/-- `BlockData.GetProposerTip` (`blockdata.go` lines 107-164), after the
block-level accessors have been applied: `baseFeePerGas` is the big-int
read from the beacon block's 32 base-fee bytes, `blockGasUsed` is
`GetGasUsed(beaconBlock)`, and `txs` are the decoded payload
transactions.  `proposerReward = Σ tipFee − blockGasUsed · baseFeePerGas`. -/
def GetProposerTip (header : Header) (receiptOf : Nat → Receipt)
    (baseFeePerGas : Int) (blockGasUsed : Nat) (txs : List Transaction) :
    Except String Int :=
  match sumTips header receiptOf txs 0 with
  | .error e => .error e
  | .ok tips => .ok (tips - (blockGasUsed : Int) * baseFeePerGas)

/-- The per-transaction fee as claim C2 states it: for types 2, 3 and 4,
`effectiveGasPrice = min(gasFeeCap, gasTipCap + baseFee)`.  This follows
the claim's words, for comparison against `txTipFee` above. -/
def txTipFeeClaim (header : Header) (receiptOf : Nat → Receipt)
    (tx : Transaction) : Except String Int :=
  let txReceipt := receiptOf tx.hash
  if tx.hash ≠ txReceipt.txHash then .error "transaction hash mismatch"
  else
    let gasUsed : Int := (txReceipt.gasUsed : Int)
    match tx.typ with
    | 0 | 1 => .ok (tx.gasPrice * gasUsed)
    | 2 | 3 | 4 => .ok (min tx.gasFeeCap (tx.gasTipCap + header.baseFee) * gasUsed)
    | _ => .error "unknown transaction type"

/-- Claim C2's version of the whole block reward, built on
`txTipFeeClaim`. -/
def GetProposerTipClaim (header : Header) (receiptOf : Nat → Receipt)
    (baseFeePerGas : Int) (blockGasUsed : Nat) (txs : List Transaction) :
    Except String Int :=
  match txs.foldl
      (fun (acc : Except String Int) tx =>
        match acc, txTipFeeClaim header receiptOf tx with
        | .ok tips, .ok fee => .ok (tips + fee)
        | .ok _, .error e => .error e
        | .error e, _ => .error e)
      (Except.ok (0 : Int)) with
  | .error e => .error e
  | .ok tips => .ok (tips - (blockGasUsed : Int) * baseFeePerGas)

/-! ## Claim C2 — per-transaction fee formula -/

/-- **C2, counterexample.**  A single type-2 transaction with
`gasFeeCap = 10`, `gasTipCap = 2`, `header.BaseFee = 3` and
`gasUsed = 1` (zero block gas, zero block base fee): the claim's
`min(gasFeeCap, gasTipCap + baseFee) = 5` predicts a reward of 5 wei,
but the code takes `gasFeeCap` because it EXCEEDS `gasTipCap + baseFee`
— a maximum, not a minimum — and returns 10 wei. -/
theorem getProposerTip_takes_max_not_min :
    GetProposerTip ⟨3⟩ (fun h => ⟨h, 1⟩) 0 0 [⟨2, 0, 0, 2, 10⟩] = .ok 10 ∧
    GetProposerTipClaim ⟨3⟩ (fun h => ⟨h, 1⟩) 0 0 [⟨2, 0, 0, 2, 10⟩] = .ok 5 ∧
    GetProposerTip ⟨3⟩ (fun h => ⟨h, 1⟩) 0 0 [⟨2, 0, 0, 2, 10⟩]
      ≠ GetProposerTipClaim ⟨3⟩ (fun h => ⟨h, 1⟩) 0 0 [⟨2, 0, 0, 2, 10⟩] := by
  have h1 : GetProposerTip ⟨3⟩ (fun h => ⟨h, 1⟩) 0 0 [⟨2, 0, 0, 2, 10⟩]
      = .ok 10 := rfl
  have h2 : GetProposerTipClaim ⟨3⟩ (fun h => ⟨h, 1⟩) 0 0 [⟨2, 0, 0, 2, 10⟩]
      = .ok 5 := rfl
  refine ⟨h1, h2, ?_⟩
  rw [h1, h2]
  intro hc
  exact absurd (Except.ok.inj hc) (by decide)

/-- The per-transaction fee of the amended claim, written directly:
legacy and access-list transactions pay `gasPrice · gasUsed`; types 2, 3
and 4 pay `max(gasFeeCap, gasTipCap + baseFee) · gasUsed`. -/
def perTxFeeMax (header : Header) (receiptOf : Nat → Receipt)
    (tx : Transaction) : Int :=
  if tx.typ ≤ 1 then tx.gasPrice * ((receiptOf tx.hash).gasUsed : Int)
  else max tx.gasFeeCap (tx.gasTipCap + header.baseFee)
    * ((receiptOf tx.hash).gasUsed : Int)

/-- **C2, amended.**  For a block whose transactions all have a known type
(0-4) and whose receipts match their hashes, the proposer reward is
`Σ fee(tx) − blockGasUsed · baseFeePerGas`, where `fee` uses
`effectiveGasPrice = max(gasFeeCap, gasTipCap + baseFee)` — a maximum,
not the claim's minimum — for types 2, 3 and 4, and `gasPrice` for
types 0 and 1. -/
theorem getProposerTip_formula (header : Header) (receiptOf : Nat → Receipt)
    (baseFeePerGas : Int) (blockGasUsed : Nat) (txs : List Transaction)
    (hty : ∀ tx ∈ txs, tx.typ ≤ 4)
    (hh : ∀ tx ∈ txs, (receiptOf tx.hash).txHash = tx.hash) :
    GetProposerTip header receiptOf baseFeePerGas blockGasUsed txs =
      .ok ((txs.map (perTxFeeMax header receiptOf)).sum
        - (blockGasUsed : Int) * baseFeePerGas) := by
  have key : ∀ (l : List Transaction) (acc : Int),
      (∀ tx ∈ l, tx.typ ≤ 4) → (∀ tx ∈ l, (receiptOf tx.hash).txHash = tx.hash) →
      sumTips header receiptOf l acc
        = .ok (acc + (l.map (perTxFeeMax header receiptOf)).sum) := by
    intro l
    induction l with
    | nil => intro acc _ _; simp [sumTips]
    | cons tx rest ih =>
        intro acc h1 h2
        have hhash : (receiptOf tx.hash).txHash = tx.hash :=
          h2 tx (List.mem_cons_self tx rest)
        have htyp : tx.typ ≤ 4 := h1 tx (List.mem_cons_self tx rest)
        have hmax : (if tx.gasTipCap + header.baseFee < tx.gasFeeCap
              then tx.gasFeeCap else tx.gasTipCap + header.baseFee)
            = max tx.gasFeeCap (tx.gasTipCap + header.baseFee) := by
          rcases le_or_lt tx.gasFeeCap (tx.gasTipCap + header.baseFee) with hle | hlt
          · rw [if_neg (not_lt.mpr hle), max_eq_right hle]
          · rw [if_pos hlt, max_eq_left hlt.le]
        have htx : txTipFee header receiptOf tx
            = .ok (perTxFeeMax header receiptOf tx) := by
          have htyp4 : tx.typ = 0 ∨ tx.typ = 1 ∨ tx.typ = 2 ∨ tx.typ = 3 ∨
              tx.typ = 4 := by omega
          simp only [txTipFee, perTxFeeMax, hhash, ne_eq, not_true_eq_false,
            if_false, gt_iff_lt]
          rcases htyp4 with h | h | h | h | h <;> rw [h] <;> simp [hmax]
        simp only [sumTips, htx]
        rw [ih (acc + perTxFeeMax header receiptOf tx)
          (fun t ht => h1 t (List.mem_cons_of_mem _ ht))
          (fun t ht => h2 t (List.mem_cons_of_mem _ ht))]
        simp only [List.map_cons, List.sum_cons, Except.ok.injEq]
        ring
  unfold GetProposerTip
  rw [key txs 0 hty hh]
  simp

/-- Witness for the amended C2 theorem: one legacy and one type-2
transaction, receipts matching. -/
theorem getProposerTip_formula_witness :
    GetProposerTip ⟨3⟩ (fun h => ⟨h, 2⟩) 3 1 [⟨0, 5, 7, 0, 0⟩, ⟨2, 6, 0, 2, 10⟩] =
      .ok (([⟨0, 5, 7, 0, 0⟩, ⟨2, 6, 0, 2, 10⟩].map
        (perTxFeeMax ⟨3⟩ (fun h => ⟨h, 2⟩))).sum - (1 : Int) * 3) :=
  getProposerTip_formula ⟨3⟩ (fun h => ⟨h, 2⟩) 3 1
    [⟨0, 5, 7, 0, 0⟩, ⟨2, 6, 0, 2, 10⟩] (by decide) (by decide)

/-! ## Relay rewards (`RelayRewards.GetRelayRewards` / `getRewards`)

The modelled version is the one the test file `relayrewards_test.go`
compiles against (the `retryOpts` field, the three-value return):
`getRewards` wraps one HTTP GET in `retry.Do` with `retry.Attempts(5)`
and `retry.Delay(5 * time.Second)`; the retried closure fails — and is
therefore retried — on a network error, on ANY non-200 status, and on a
body-read error; JSON decoding happens after the retry loop and is not
retried.  `GetRelayRewards` fans workers out over `slots × relays` with a
per-relay semaphore and a single consumer goroutine summing into
`poolRewards`; any worker error makes the function return
`nil, nil, err`.  The model is the sequential determinization: the sum is
order-independent and any error yields the error return. -/

/-- `common.BidTraceV2JSON`, restricted to the two fields the aggregator
reads. -/
structure BidTraceV2JSON where
  proposerPubkey : String
  value : String
  deriving Repr, DecidableEq

/-- A decimal digit, or `none`. -/
def decDigit? (c : Char) : Option Nat :=
  if '0' ≤ c ∧ c ≤ '9' then some (c.toNat - '0'.toNat) else none

/-- Accumulate decimal digits; `none` on the first non-digit. -/
def decDigitsAux : List Char → Nat → Option Nat
  | [], acc => some acc
  | c :: rest, acc =>
      match decDigit? c with
      | none => none
      | some d => decDigitsAux rest (acc * 10 + d)

/-- `big.NewInt(0).SetString(s, 10)`: an optional `+`/`-` sign followed by
one or more decimal digits; anything else (including the empty string)
fails. -/
def setStringDec (s : String) : Option Int :=
  match s.toList with
  | [] => none
  | '+' :: rest =>
      if rest = [] then none else (decDigitsAux rest 0).map Int.ofNat
  | '-' :: rest =>
      if rest = [] then none else (decDigitsAux rest 0).map (fun n => -(n : Int))
  | l => (decDigitsAux l 0).map Int.ofNat

/-- The observable outcome of one HTTP GET against a relay: a transport
error, or a response with a status code and a body.  The body is carried
as the two things the code extracts from it: `.error ()` if `io.ReadAll`
fails, otherwise the result of `json.Unmarshal` (`none` = malformed
JSON). -/
inductive HttpAttempt where
  | netErr
  | resp (status : Nat) (body : Except Unit (Option (List BidTraceV2JSON)))

/-- One execution of the closure passed to `retry.Do` inside `getRewards`
(`part_004` lines 132-147): fails on a network error, on
`resp.StatusCode != http.StatusOK`, and on a body-read error; on success
it stores the raw body (represented by its decode result). -/
def attemptOnce : HttpAttempt → Option (Option (List BidTraceV2JSON))
  | .netErr => none
  | .resp status body =>
      if status ≠ 200 then none
      else
        match body with
        | .error _ => none
        | .ok b => some b

/-- `retry.Do` with `retry.Attempts(n)`: run the closure on successive
attempt outcomes until one succeeds or `n` attempts are exhausted. -/
def retryDo (outcomes : Nat → HttpAttempt) : Nat → Nat → Option (Option (List BidTraceV2JSON))
  | _, 0 => none
  | idx, n + 1 =>
      match attemptOnce (outcomes idx) with
      | some b => some b
      | none => retryDo outcomes (idx + 1) n

/-- `getRewards` (`part_004` lines 130-160): the retry loop with 5
attempts, then `json.Unmarshal` on the body of the successful attempt. -/
def getRewards (outcomes : Nat → HttpAttempt) : Except String (List BidTraceV2JSON) :=
  match retryDo outcomes 0 5 with
  | none => .error "error getting rewards"
  | some none => .error "error decoding proposer payload delivered"
  | some (some payloads) => .ok payloads

/-! ## Claim C3 — relay retry policy -/

/-- Attempt outcomes in which the first request draws a 404 — a non-5xx,
non-200 status — and the second a well-formed 200. -/
def afterNotFoundOutcomes : Nat → HttpAttempt := fun i =>
  if i = 0 then .resp 404 (.ok (some [])) else .resp 200 (.ok (some []))

/-- **C3, counterexample.**  A 404 response does NOT make the request fail
immediately: the closure returns an error for every non-200 status, so
`retry.Do` retries it, and a subsequent 200 makes the whole request
succeed.  (Under the claim a non-5xx non-200 would fail the request
without further attempts.) -/
theorem getRewards_retries_after_404 :
    getRewards afterNotFoundOutcomes = .ok [] ∧
    (404 : Nat) < 500 ∧ (404 : Nat) ≠ 200 := by
  exact ⟨rfl, by decide, by decide⟩

/-- If the first `n` attempts starting at `idx` all fail, `retry.Do`
returns failure. -/
theorem retryDo_all_fail (outcomes : Nat → HttpAttempt) :
    ∀ n idx, (∀ j, j < n → attemptOnce (outcomes (idx + j)) = none) →
      retryDo outcomes idx n = none := by
  intro n
  induction n with
  | zero => intro idx _; rfl
  | succ m ih =>
      intro idx h
      have h0 : attemptOnce (outcomes idx) = none := by
        simpa using h 0 (Nat.succ_pos m)
      rw [retryDo, h0]
      exact ih (idx + 1) fun j hj => by
        have := h (j + 1) (by omega)
        rwa [show idx + (j + 1) = idx + 1 + j by omega] at this

/-- If attempt `idx + k` (with `k < n`) is the first success, `retry.Do`
returns its body. -/
theorem retryDo_first_success (outcomes : Nat → HttpAttempt)
    (b : Option (List BidTraceV2JSON)) :
    ∀ n k idx, k < n → (∀ j, j < k → attemptOnce (outcomes (idx + j)) = none) →
      attemptOnce (outcomes (idx + k)) = some b →
      retryDo outcomes idx n = some b := by
  intro n
  induction n with
  | zero => intro k idx hk; omega
  | succ m ih =>
      intro k idx hk hfail hsucc
      match k with
      | 0 =>
          rw [retryDo]
          simp only [Nat.add_zero] at hsucc
          rw [hsucc]
      | k' + 1 =>
          have h0 : attemptOnce (outcomes idx) = none := by
            simpa using hfail 0 (Nat.succ_pos k')
          rw [retryDo, h0]
          refine ih k' (idx + 1) (by omega) (fun j hj => ?_) ?_
          · have := hfail (j + 1) (by omega)
            rwa [show idx + (j + 1) = idx + 1 + j by omega] at this
          · rwa [show idx + (k' + 1) = idx + 1 + k' by omega] at hsucc

/-- **C3, amended.**  Each relay request is attempted up to 5 times
(`retry.Attempts(5)`, base delay 5 s); an attempt fails — and is retried —
on a network error OR on ANY non-200 status (404 included) or body-read
error; the request as a whole fails only after all 5 attempts fail, and
otherwise uses the first successful attempt's body (whose JSON decoding,
not retried, may still fail). -/
theorem getRewards_retry_characterization (outcomes : Nat → HttpAttempt) :
    ((∀ j, j < 5 → attemptOnce (outcomes j) = none) →
      getRewards outcomes = .error "error getting rewards") ∧
    (∀ k, k < 5 → (∀ j, j < k → attemptOnce (outcomes j) = none) →
      (∀ payloads, attemptOnce (outcomes k) = some (some payloads) →
        getRewards outcomes = .ok payloads) ∧
      (attemptOnce (outcomes k) = some none →
        getRewards outcomes = .error "error decoding proposer payload delivered")) := by
  constructor
  · intro h
    have : retryDo outcomes 0 5 = none :=
      retryDo_all_fail outcomes 5 0 fun j hj => by simpa using h j hj
    rw [getRewards, this]
  · intro k hk hfail
    constructor
    · intro payloads hsucc
      have : retryDo outcomes 0 5 = some (some payloads) :=
        retryDo_first_success outcomes (some payloads) 5 k 0 hk
          (fun j hj => by simpa using hfail j hj) (by simpa using hsucc)
      rw [getRewards, this]
    · intro hsucc
      have : retryDo outcomes 0 5 = some none :=
        retryDo_first_success outcomes none 5 k 0 hk
          (fun j hj => by simpa using hfail j hj) (by simpa using hsucc)
      rw [getRewards, this]

/-- Attempt outcomes for the C3 witness: a transport error, then a
well-formed 200. -/
def netErrThenOkOutcomes : Nat → HttpAttempt := fun i =>
  if i = 0 then .netErr else .resp 200 (.ok (some []))

/-- Witness for the amended C3 theorem: one network error followed by a
200 yields success on the second attempt. -/
theorem getRewards_retry_characterization_witness :
    getRewards netErrThenOkOutcomes = .ok [] :=
  ((getRewards_retry_characterization netErrThenOkOutcomes).2 1 (by omega)
    (fun j hj => by interval_cases j; rfl)).1 [] rfl

/-! ## The relay aggregation itself (`GetRelayRewards`, `part_004`)

Work items are the Cartesian product of the epoch's slots and the relay
list; each successful item's payloads flow through the single consumer,
which looks up `proposerPubkey` in `validatorKeyToPool` (unknown keys are
skipped with `continue` BEFORE the value is parsed), parses `value` in
base 10 (a failure is a worker error), and sums into
`poolRewards[pool]`, also recording the slot in `slotsWithRewards`.
Any worker error makes `GetRelayRewards` return `nil, nil, err`. -/

/-- The consumer's two maps: `poolRewards` and `slotsWithRewards`. -/
structure RelayAcc where
  poolRewards : List (String × Int)
  slotsWithRewards : List Nat
  deriving Repr, DecidableEq

/-- `poolRewards[pool] += reward` with Go-map create-if-absent. -/
def addReward : List (String × Int) → String → Int → List (String × Int)
  | [], pool, v => [(pool, v)]
  | (q, w) :: rest, pool, v =>
      if q = pool then (q, w + v) :: rest
      else (q, w) :: addReward rest pool v

/-- `slotsWithRewards[slot] = struct{}{}` (a set insert). -/
def addSlot (slots : List Nat) (slot : Nat) : List Nat :=
  if slot ∈ slots then slots else slots ++ [slot]

/-- One `results <- {slot, pool, value}` consumed by the consumer
goroutine. -/
def consumeResult (acc : RelayAcc) (slot : Nat) (pool : String) (v : Int) :
    RelayAcc :=
  { poolRewards := addReward acc.poolRewards pool v
    slotsWithRewards := addSlot acc.slotsWithRewards slot }

/-- The `for _, payload := range payloads` worker body: skip unknown
pubkeys, fail on an unparseable `value`, otherwise send the result to the
consumer. -/
def processPayloads (validatorKeyToPool : List (String × String)) (slot : Nat) :
    List BidTraceV2JSON → RelayAcc → Except String RelayAcc
  | [], acc => .ok acc
  | payload :: rest, acc =>
      match validatorKeyToPool.lookup payload.proposerPubkey with
      | none => processPayloads validatorKeyToPool slot rest acc
      | some pool =>
          match setStringDec payload.value with
          | none => .error ("failed to parse value: " ++ payload.value)
          | some value =>
              processPayloads validatorKeyToPool slot rest
                (consumeResult acc slot pool value)

/-- The work items of one slot across the relay list: fetch each relay's
payloads (an exhausted `getRewards` is a worker error) and feed them to
the consumer. -/
def processRelays (validatorKeyToPool : List (String × String))
    (fetch : String → Nat → Except String (List BidTraceV2JSON)) (slot : Nat) :
    List String → RelayAcc → Except String RelayAcc
  | [], acc => .ok acc
  | relay :: rest, acc =>
      match fetch relay slot with
      | .error e => .error ("error getting rewards from " ++ relay ++ ": " ++ e)
      | .ok payloads =>
          match processPayloads validatorKeyToPool slot payloads acc with
          | .error e => .error e
          | .ok acc' => processRelays validatorKeyToPool fetch slot rest acc'

/-- The outer `for i := range slotsInEpoch` loop over
`slot := epoch*slotsInEpoch + i`. -/
def processSlots (validatorKeyToPool : List (String × String))
    (fetch : String → Nat → Except String (List BidTraceV2JSON))
    (relays : List String) (epoch slotsInEpoch : Nat) :
    List Nat → RelayAcc → Except String RelayAcc
  | [], acc => .ok acc
  | i :: rest, acc =>
      match processRelays validatorKeyToPool fetch
          (epoch * slotsInEpoch + i) relays acc with
      | .error e => .error e
      | .ok acc' =>
          processSlots validatorKeyToPool fetch relays epoch slotsInEpoch rest acc'

/-- `RelayRewards.GetRelayRewards` (`part_004` lines 56-128), sequential
determinization: on any worker error the function returns
`nil, nil, err` (here: `.error`), otherwise the two aggregate maps. -/
def GetRelayRewards (validatorKeyToPool : List (String × String))
    (relays : List String) (slotsInEpoch epoch : Nat)
    (fetch : String → Nat → Except String (List BidTraceV2JSON)) :
    Except String (List (String × Int) × List Nat) :=
  match processSlots validatorKeyToPool fetch relays epoch slotsInEpoch
      (List.range slotsInEpoch) ⟨[], []⟩ with
  | .error e => .error e
  | .ok acc => .ok (acc.poolRewards, acc.slotsWithRewards)

/-- The contribution of one payload to pool `pool`: its parsed value if
its proposer pubkey maps to `pool`, else nothing. -/
def payloadPoolValue (validatorKeyToPool : List (String × String))
    (pool : String) (payload : BidTraceV2JSON) : Int :=
  if validatorKeyToPool.lookup payload.proposerPubkey = some pool
  then (setStringDec payload.value).getD 0 else 0

/-- The sum, over every slot of the epoch and every relay, of the values
of the fetched payloads that map to `pool` — the right-hand side of the
relay-aggregation invariant. -/
def fetchedPoolSum (validatorKeyToPool : List (String × String))
    (relays : List String) (slotsInEpoch epoch : Nat)
    (fetch : String → Nat → Except String (List BidTraceV2JSON))
    (pool : String) : Int :=
  ((List.range slotsInEpoch).map (fun i =>
    (relays.map (fun relay =>
      (((fetch relay (epoch * slotsInEpoch + i)).toOption.getD []).map
        (payloadPoolValue validatorKeyToPool pool)).sum)).sum)).sum

theorem lookup_addReward (m : List (String × Int)) (pool : String) (v : Int)
    (q : String) :
    ((addReward m pool v).lookup q).getD 0
      = (m.lookup q).getD 0 + (if q = pool then v else 0) := by
  induction m with
  | nil =>
      by_cases h : q = pool
      · subst h; simp [addReward, List.lookup]
      · simp [addReward, List.lookup, h, beq_eq_false_iff_ne.mpr h]
  | cons kv rest ih =>
      obtain ⟨a, b⟩ := kv
      by_cases hap : a = pool
      · subst hap
        by_cases hq : q = a
        · subst hq; simp [addReward, List.lookup]
        · simp [addReward, List.lookup, hq, beq_eq_false_iff_ne.mpr hq]
      · by_cases hq : q = a
        · subst hq
          simp [addReward, List.lookup, hap, Ne.symm hap,
            beq_eq_false_iff_ne.mpr (Ne.symm hap)]
        · simp [addReward, List.lookup, hap, hq,
            beq_eq_false_iff_ne.mpr hq, ih]

theorem processPayloads_sum (validatorKeyToPool : List (String × String))
    (slot : Nat) (pool : String) :
    ∀ (payloads : List BidTraceV2JSON) (acc acc' : RelayAcc),
      processPayloads validatorKeyToPool slot payloads acc = .ok acc' →
      (acc'.poolRewards.lookup pool).getD 0
        = (acc.poolRewards.lookup pool).getD 0
          + (payloads.map (payloadPoolValue validatorKeyToPool pool)).sum := by
  intro payloads
  induction payloads with
  | nil =>
      intro acc acc' h
      cases h
      simp
  | cons payload rest ih =>
      intro acc acc' h
      rw [processPayloads] at h
      cases hl : validatorKeyToPool.lookup payload.proposerPubkey with
      | none =>
          rw [hl] at h
          rw [ih acc acc' h]
          simp [payloadPoolValue, hl]
      | some p =>
          rw [hl] at h
          cases hv : setStringDec payload.value with
          | none => rw [hv] at h; cases h
          | some v =>
              rw [hv] at h
              rw [ih _ acc' h]
              simp only [consumeResult, lookup_addReward, List.map_cons,
                List.sum_cons, payloadPoolValue, hl, hv, Option.getD_some,
                Option.some.injEq]
              by_cases hp : p = pool
              · subst hp; simp; ring
              · simp [hp, Ne.symm hp]

theorem processRelays_sum (validatorKeyToPool : List (String × String))
    (fetch : String → Nat → Except String (List BidTraceV2JSON))
    (slot : Nat) (pool : String) :
    ∀ (relays : List String) (acc acc' : RelayAcc),
      processRelays validatorKeyToPool fetch slot relays acc = .ok acc' →
      (acc'.poolRewards.lookup pool).getD 0
        = (acc.poolRewards.lookup pool).getD 0
          + (relays.map (fun relay =>
              (((fetch relay slot).toOption.getD []).map
                (payloadPoolValue validatorKeyToPool pool)).sum)).sum := by
  intro relays
  induction relays with
  | nil =>
      intro acc acc' h
      cases h
      simp
  | cons relay rest ih =>
      intro acc acc' h
      rw [processRelays] at h
      split at h
      · cases h
      next payloads hf =>
        split at h
        · cases h
        next acc1 hp =>
          rw [ih acc1 acc' h,
            processPayloads_sum validatorKeyToPool slot pool payloads acc acc1 hp]
          simp [hf, Except.toOption]
          ring

theorem processSlots_sum (validatorKeyToPool : List (String × String))
    (fetch : String → Nat → Except String (List BidTraceV2JSON))
    (relays : List String) (epoch slotsInEpoch : Nat) (pool : String) :
    ∀ (idxs : List Nat) (acc acc' : RelayAcc),
      processSlots validatorKeyToPool fetch relays epoch slotsInEpoch idxs acc
        = .ok acc' →
      (acc'.poolRewards.lookup pool).getD 0
        = (acc.poolRewards.lookup pool).getD 0
          + (idxs.map (fun i =>
              (relays.map (fun relay =>
                (((fetch relay (epoch * slotsInEpoch + i)).toOption.getD []).map
                  (payloadPoolValue validatorKeyToPool pool)).sum)).sum)).sum := by
  intro idxs
  induction idxs with
  | nil =>
      intro acc acc' h
      cases h
      simp
  | cons i rest ih =>
      intro acc acc' h
      rw [processSlots] at h
      cases hr : processRelays validatorKeyToPool fetch
          (epoch * slotsInEpoch + i) relays acc with
      | error e => rw [hr] at h; cases h
      | ok acc1 =>
          rw [hr] at h
          rw [ih acc1 acc' h,
            processRelays_sum validatorKeyToPool fetch
              (epoch * slotsInEpoch + i) pool relays acc acc1 hr]
          simp
          ring

/-! ## Claim C5 — relay aggregation totals -/

/-- **C5.**  When `GetRelayRewards` succeeds, `poolRewards[p]` (with the
Go-map convention that an absent pool reads as zero) equals the sum of
the parsed `value` fields over all payloads, across every slot of the
epoch and every relay, whose `proposerPubkey` maps to `p` in the
pubkey-to-pool map; payloads with unknown pubkeys contribute nothing. -/
theorem getRelayRewards_pool_sum (validatorKeyToPool : List (String × String))
    (relays : List String) (slotsInEpoch epoch : Nat)
    (fetch : String → Nat → Except String (List BidTraceV2JSON))
    (rewards : List (String × Int)) (slots : List Nat)
    (h : GetRelayRewards validatorKeyToPool relays slotsInEpoch epoch fetch
      = .ok (rewards, slots)) (pool : String) :
    (rewards.lookup pool).getD 0
      = fetchedPoolSum validatorKeyToPool relays slotsInEpoch epoch fetch pool := by
  unfold GetRelayRewards at h
  cases hps : processSlots validatorKeyToPool fetch relays epoch slotsInEpoch
      (List.range slotsInEpoch) ⟨[], []⟩ with
  | error e => rw [hps] at h; cases h
  | ok acc =>
      rw [hps] at h
      cases h
      have := processSlots_sum validatorKeyToPool fetch relays epoch slotsInEpoch
        pool (List.range slotsInEpoch) ⟨[], []⟩ acc hps
      simpa [fetchedPoolSum, List.lookup] using this

/-- Witness for C5 at a concrete two-slot epoch with one relay and two
pools. -/
theorem getRelayRewards_pool_sum_witness :
    (([("pool1", (20 : Int)), ("pool2", 40)] : List (String × Int)).lookup
        "pool1").getD 0
      = fetchedPoolSum [("k1", "pool1"), ("k2", "pool2")] ["r"] 2 0
          (fun _ _ => .ok [⟨"k1", "10"⟩, ⟨"k2", "20"⟩]) "pool1" :=
  getRelayRewards_pool_sum [("k1", "pool1"), ("k2", "pool2")] ["r"] 2 0
    (fun _ _ => .ok [⟨"k1", "10"⟩, ⟨"k2", "20"⟩])
    [("pool1", 20), ("pool2", 40)] [0, 1] rfl "pool1"

/-! ## Claim C4 — unparseable relay values -/

theorem processPayloads_ok_parses (validatorKeyToPool : List (String × String))
    (slot : Nat) :
    ∀ (payloads : List BidTraceV2JSON) (acc acc' : RelayAcc),
      processPayloads validatorKeyToPool slot payloads acc = .ok acc' →
      ∀ b ∈ payloads, (validatorKeyToPool.lookup b.proposerPubkey).isSome →
        (setStringDec b.value).isSome := by
  intro payloads
  induction payloads with
  | nil => intro acc acc' _ b hb; cases hb
  | cons payload rest ih =>
      intro acc acc' h b hb hknown
      rw [processPayloads] at h
      rcases List.mem_cons.mp hb with hb | hb
      · subst hb
        cases hl : validatorKeyToPool.lookup b.proposerPubkey with
        | none => rw [hl] at hknown; cases hknown
        | some p =>
            rw [hl] at h
            cases hv : setStringDec b.value with
            | none => rw [hv] at h; cases h
            | some v => simp [hv]
      · cases hl : validatorKeyToPool.lookup payload.proposerPubkey with
        | none => rw [hl] at h; exact ih acc acc' h b hb hknown
        | some p =>
            rw [hl] at h
            cases hv : setStringDec payload.value with
            | none => rw [hv] at h; cases h
            | some v =>
                rw [hv] at h
                exact ih _ acc' h b hb hknown

theorem processRelays_ok_parses (validatorKeyToPool : List (String × String))
    (fetch : String → Nat → Except String (List BidTraceV2JSON)) (slot : Nat) :
    ∀ (relays : List String) (acc acc' : RelayAcc),
      processRelays validatorKeyToPool fetch slot relays acc = .ok acc' →
      ∀ relay ∈ relays, ∀ payloads, fetch relay slot = .ok payloads →
        ∀ b ∈ payloads, (validatorKeyToPool.lookup b.proposerPubkey).isSome →
          (setStringDec b.value).isSome := by
  intro relays
  induction relays with
  | nil => intro acc acc' _ relay hr; cases hr
  | cons relay0 rest ih =>
      intro acc acc' h relay hr payloads hf b hb hknown
      rw [processRelays] at h
      split at h
      · cases h
      next payloads0 hf0 =>
        split at h
        · cases h
        next acc1 hp =>
          rcases List.mem_cons.mp hr with hr | hr
          · subst hr
            rw [hf0] at hf
            cases hf
            exact processPayloads_ok_parses validatorKeyToPool slot
              payloads acc acc1 hp b hb hknown
          · exact ih acc1 acc' h relay hr payloads hf b hb hknown

theorem processSlots_ok_parses (validatorKeyToPool : List (String × String))
    (fetch : String → Nat → Except String (List BidTraceV2JSON))
    (relays : List String) (epoch slotsInEpoch : Nat) :
    ∀ (idxs : List Nat) (acc acc' : RelayAcc),
      processSlots validatorKeyToPool fetch relays epoch slotsInEpoch idxs acc
        = .ok acc' →
      ∀ i ∈ idxs, ∀ relay ∈ relays, ∀ payloads,
        fetch relay (epoch * slotsInEpoch + i) = .ok payloads →
        ∀ b ∈ payloads, (validatorKeyToPool.lookup b.proposerPubkey).isSome →
          (setStringDec b.value).isSome := by
  intro idxs
  induction idxs with
  | nil => intro acc acc' _ i hi; cases hi
  | cons i0 rest ih =>
      intro acc acc' h i hi relay hr payloads hf b hb hknown
      rw [processSlots] at h
      cases hr0 : processRelays validatorKeyToPool fetch
          (epoch * slotsInEpoch + i0) relays acc with
      | error e => rw [hr0] at h; cases h
      | ok acc1 =>
          rw [hr0] at h
          rcases List.mem_cons.mp hi with hi | hi
          · subst hi
            exact processRelays_ok_parses validatorKeyToPool fetch
              (epoch * slotsInEpoch + i) relays acc acc1 hr0 relay hr
              payloads hf b hb hknown
          · exact ih acc1 acc' h i hi relay hr payloads hf b hb hknown

/-- **C4, counterexample.**  A payload whose `value` does not parse but
whose `proposerPubkey` is NOT in the pool map does not fail the pipeline:
the worker `continue`s at the pool lookup before ever parsing the value,
and `GetRelayRewards` succeeds (with empty maps). -/
theorem getRelayRewards_unknown_pubkey_not_fatal :
    GetRelayRewards [("0xknown", "pool1")] ["relay1"] 1 0
      (fun _ _ => .ok [⟨"0xother", "Invalid Value"⟩]) = .ok ([], []) ∧
    setStringDec "Invalid Value" = none := ⟨rfl, rfl⟩

/-- **C4, amended.**  If any fetched payload whose `proposerPubkey` IS in
the pubkey-to-pool map carries a `value` that does not parse as a base-10
integer, `GetRelayRewards` fails and returns no partial rewards map (the
Go function returns `nil, nil, err`); payloads with unknown pubkeys are
skipped before their value is ever parsed. -/
theorem getRelayRewards_bad_value_fails (validatorKeyToPool : List (String × String))
    (relays : List String) (slotsInEpoch epoch : Nat)
    (fetch : String → Nat → Except String (List BidTraceV2JSON))
    (i : Nat) (relay : String) (payloads : List BidTraceV2JSON)
    (b : BidTraceV2JSON) (hi : i < slotsInEpoch) (hr : relay ∈ relays)
    (hf : fetch relay (epoch * slotsInEpoch + i) = .ok payloads)
    (hb : b ∈ payloads)
    (hknown : (validatorKeyToPool.lookup b.proposerPubkey).isSome)
    (hbad : setStringDec b.value = none) :
    ∃ e, GetRelayRewards validatorKeyToPool relays slotsInEpoch epoch fetch
      = .error e := by
  unfold GetRelayRewards
  cases hps : processSlots validatorKeyToPool fetch relays epoch slotsInEpoch
      (List.range slotsInEpoch) ⟨[], []⟩ with
  | error e => exact ⟨e, rfl⟩
  | ok acc =>
      exfalso
      have := processSlots_ok_parses validatorKeyToPool fetch relays epoch
        slotsInEpoch (List.range slotsInEpoch) ⟨[], []⟩ acc hps i
        (List.mem_range.mpr hi) relay hr payloads hf b hb hknown
      rw [hbad] at this
      cases this

/-- Witness for the amended C4 theorem: a known pubkey with value
`"bad"` makes `GetRelayRewards` error out. -/
theorem getRelayRewards_bad_value_fails_witness :
    ∃ e, GetRelayRewards [("k", "p")] ["r"] 1 0
      (fun _ _ => .ok [⟨"k", "bad"⟩]) = .error e :=
  getRelayRewards_bad_value_fails [("k", "p")] ["r"] 1 0
    (fun _ _ => .ok [⟨"k", "bad"⟩]) 0 "r" [⟨"k", "bad"⟩] ⟨"k", "bad"⟩
    (by omega) (List.mem_singleton.mpr rfl) rfl (List.mem_singleton.mpr rfl)
    rfl rfl

/-! ## Backfill planner (`db.GetMissingEpochs`, `src/Dockerfile` lines 224-262)

`Database.GetMissingEpochs(currentEpoch, backfillEpochs)` builds the set
of expected epochs with the `uint64` loop
`for epoch := currentEpoch - backfillEpochs + 1; epoch <= currentEpoch; epoch++`
(the start wraps modulo `2^64`; when the wrapped start exceeds
`currentEpoch` the loop body never runs), deletes from it every epoch
that has a `t_pools_metrics_summary` row in that range (the SQL `BETWEEN`
bounds coincide with the loop bounds, so this removes exactly the
persisted epochs of the range), collects the remainder and sorts it with
`sort.Slice(·, less = <)` — ascending.  The sorted set of the surviving
range elements is the ascending range with the persisted epochs filtered
out. -/

/-- `currentEpoch - backfillEpochs + 1` in Go `uint64` arithmetic
(both arguments below `2^64`). -/
def missingRangeStart (currentEpoch backfillEpochs : Nat) : Nat :=
  (currentEpoch + 1 + (2 ^ 64 - backfillEpochs)) % 2 ^ 64

/-- `Database.GetMissingEpochs` (`src/Dockerfile` lines 224-262):
`persisted` is the set of epochs that already have a
`t_pools_metrics_summary` row. -/
def GetMissingEpochs (persisted : List Nat) (currentEpoch backfillEpochs : Nat) :
    List Nat :=
  let start := missingRangeStart currentEpoch backfillEpochs
  if start ≤ currentEpoch then
    ((List.range (currentEpoch - start + 1)).map (fun i => start + i)).filter
      (fun e => !persisted.contains e)
  else []

/-! ## Claim C6 — backfill gap completeness -/

/-- **C6.**  For every window not reaching below epoch 0 (`W ≤ C + 1`,
epochs below the `uint64` maximum), `getMissingEpochs(C, W)` returns
exactly the epochs of `[C − W + 1, C]` with no `pools_metrics_summary`
row, in ascending order; in particular with only epoch 100 persisted
`getMissingEpochs(200, 4) = [197, 198, 199, 200]`, after persisting 197
as well it returns `[198, 199, 200]`, and
`getMissingEpochs(200, 0) = []`. -/
theorem getMissingEpochs_spec (persisted : List Nat) (C W : Nat)
    (h : W ≤ C + 1) (hC : C + 1 < 2 ^ 64) :
    (∀ e, e ∈ GetMissingEpochs persisted C W ↔
      (C + 1 - W ≤ e ∧ e ≤ C ∧ e ∉ persisted)) ∧
    (GetMissingEpochs persisted C W).Pairwise (· < ·) ∧
    GetMissingEpochs [100] 200 4 = [197, 198, 199, 200] ∧
    GetMissingEpochs [100, 197] 200 4 = [198, 199, 200] ∧
    GetMissingEpochs [100, 197] 200 0 = [] := by
  have hs : missingRangeStart C W = C + 1 - W := by
    unfold missingRangeStart
    omega
  refine ⟨?_, ?_, by decide, by decide, by decide⟩
  · intro e
    unfold GetMissingEpochs
    rw [hs]
    by_cases hW0 : C + 1 - W ≤ C
    · rw [if_pos hW0]
      have hlen : C - (C + 1 - W) + 1 = W := by omega
      rw [hlen]
      simp only [List.mem_filter, List.mem_map, List.mem_range,
        Bool.not_eq_true', List.contains, List.elem_eq_mem,
        decide_eq_false_iff_not]
      constructor
      · rintro ⟨⟨i, hi, rfl⟩, hnp⟩
        exact ⟨by omega, by omega, hnp⟩
      · rintro ⟨h1, h2, hnp⟩
        exact ⟨⟨e - (C + 1 - W), by omega, by omega⟩, hnp⟩
    · rw [if_neg hW0]
      simp only [List.not_mem_nil, false_iff, not_and]
      intro h1 h2
      omega
  · unfold GetMissingEpochs
    rw [hs]
    by_cases hW0 : C + 1 - W ≤ C
    · rw [if_pos hW0]
      refine List.Pairwise.filter _ ?_
      rw [List.pairwise_map]
      exact (List.pairwise_lt_range _).imp fun hab => by omega
    · rw [if_neg hW0]
      exact List.Pairwise.nil

/-- Witness for the C6 theorem at the spec's S1 scenario. -/
theorem getMissingEpochs_spec_witness :
    GetMissingEpochs [100] 200 4 = [197, 198, 199, 200] :=
  (getMissingEpochs_spec [100] 200 4 (by omega) (by norm_num)).2.2.1

/-! ## Validators file (`pools/pools.go`, `ReadValidatorsFile`)

Each line of the CSV is split on `","` into exactly two fields
`entity,key`; the key gets a `0x` prefix if missing, must then be 98
characters long, and is hex-decoded (`hexutil.Decode`: `0x` prefix then
pairs of hex digits).  The decoded key bytes are appended to
`poolValidatorKeys[entity]` and the key STRING is mapped to the entity in
`validatorKeyToPool` (a plain Go map assignment: a later row with the
same key string overwrites an earlier one).  Strings are handled
character-wise (the Go byte length and the character length agree on the
ASCII data this parser accepts).  On a malformed line Go returns the
partial maps together with a non-nil error; callers treat that as
failure, so the model returns `Except.error`. -/

/-- `strings.Split(line, sep)` for a one-character separator. -/
def splitOnChar (sep : Char) : List Char → List (List Char)
  | [] => [[]]
  | c :: rest =>
      let r := splitOnChar sep rest
      if c = sep then [] :: r
      else
        match r with
        | [] => [[c]]
        | f :: fs => (c :: f) :: fs

/-- The value of a hex digit (both cases accepted, as by Go's
`encoding/hex`). -/
def hexDigit? (c : Char) : Option Nat :=
  if '0' ≤ c ∧ c ≤ '9' then some (c.toNat - '0'.toNat)
  else if 'a' ≤ c ∧ c ≤ 'f' then some (c.toNat - 'a'.toNat + 10)
  else if 'A' ≤ c ∧ c ≤ 'F' then some (c.toNat - 'A'.toNat + 10)
  else none

/-- `hex.DecodeString` on the part after the `0x` prefix: pairs of hex
digits; odd length or a non-hex character fails. -/
def decodeHexBody : List Char → Option (List Nat)
  | [] => some []
  | [_] => none
  | c1 :: c2 :: rest =>
      match hexDigit? c1, hexDigit? c2, decodeHexBody rest with
      | some hi, some lo, some bytes => some ((16 * hi + lo) :: bytes)
      | _, _, _ => none

/-- `hexutil.Decode`: requires the `0x` prefix, then decodes hex pairs. -/
def hexutilDecode (l : List Char) : Option (List Nat) :=
  match l with
  | '0' :: 'x' :: rest => decodeHexBody rest
  | _ => none

/-- One loop iteration of `ReadValidatorsFile` up to the map updates:
split on `","` into `entity,key`, normalize the `0x` prefix, check the
98-character length, hex-decode.  Returns
`(entity, normalized key string, decoded key bytes)`. -/
def parseValidatorsLine (line : String) :
    Except String (String × String × List Nat) :=
  match splitOnChar ',' line.toList with
  | [entityChars, rawKeyChars] =>
      let keyChars :=
        match rawKeyChars with
        | '0' :: 'x' :: _ => rawKeyChars
        | _ => '0' :: 'x' :: rawKeyChars
      if keyChars.length ≠ 98 then .error "length of key is incorrect"
      else
        match hexutilDecode keyChars with
        | none => .error ("could not decode key: " ++ String.mk keyChars)
        | some valKey => .ok (String.mk entityChars, String.mk keyChars, valKey)
  | _ => .error "the format of the file is not the expected: entity1,key1"

/-- `poolValidatorKeys[entity] = append(poolValidatorKeys[entity], valKey)`
with Go-map create-if-absent. -/
def addKeyToPool :
    List (String × List (List Nat)) → String → List Nat →
    List (String × List (List Nat))
  | [], entity, key => [(entity, [key])]
  | (e, ks) :: rest, entity, key =>
      if e = entity then (e, ks ++ [key]) :: rest
      else (e, ks) :: addKeyToPool rest entity key

/-- `validatorKeyToPool[keyStr] = entity` (a later assignment with the
same key string overwrites). -/
def setKeyPool : List (String × String) → String → String → List (String × String)
  | [], keyStr, entity => [(keyStr, entity)]
  | (s, e) :: rest, keyStr, entity =>
      if s = keyStr then (s, entity) :: rest
      else (s, e) :: setKeyPool rest keyStr entity

/-- The scanner loop of `ReadValidatorsFile`: parse each line in order and
update both maps. -/
def readValidatorsAux :
    List String → List (String × List (List Nat)) → List (String × String) →
    Except String (List (String × List (List Nat)) × List (String × String))
  | [], pk, kp => .ok (pk, kp)
  | line :: rest, pk, kp =>
      match parseValidatorsLine line with
      | .error e => .error e
      | .ok (entity, keyStr, valKey) =>
          readValidatorsAux rest (addKeyToPool pk entity valKey)
            (setKeyPool kp keyStr entity)

/-- `pools.ReadValidatorsFile` (`pools.go` lines 102-148) on the file's
lines: returns `(poolValidatorKeys, validatorKeyToPool)`. -/
def ReadValidatorsFile (lines : List String) :
    Except String (List (String × List (List Nat)) × List (String × String)) :=
  readValidatorsAux lines [] []

/-- The parsed `(entity, keyStr, valKey)` rows of a file. -/
def validatorRows (lines : List String) : List (String × String × List Nat) :=
  lines.filterMap fun line => (parseValidatorsLine line).toOption

/-- Pool `entity`'s key list, reading an absent pool as empty. -/
def poolKeysOf (pk : List (String × List (List Nat))) (entity : String) :
    List (List Nat) :=
  (pk.lookup entity).getD []

/-- `poolValidatorKeys` accumulated over a list of parsed rows. -/
def buildPoolKeys (pk0 : List (String × List (List Nat)))
    (rows : List (String × String × List Nat)) :
    List (String × List (List Nat)) :=
  rows.foldl (fun m r => addKeyToPool m r.1 r.2.2) pk0

/-- `validatorKeyToPool` accumulated over a list of parsed rows. -/
def buildKeyPool (kp0 : List (String × String))
    (rows : List (String × String × List Nat)) : List (String × String) :=
  rows.foldl (fun m r => setKeyPool m r.2.1 r.1) kp0

theorem readValidatorsAux_build :
    ∀ (lines : List String) (pk0 : List (String × List (List Nat)))
      (kp0 : List (String × String)) (pk : List (String × List (List Nat)))
      (kp : List (String × String)),
      readValidatorsAux lines pk0 kp0 = .ok (pk, kp) →
      pk = buildPoolKeys pk0 (validatorRows lines) ∧
      kp = buildKeyPool kp0 (validatorRows lines)
  | [], pk0, kp0, pk, kp => by
      intro h
      cases h
      simp [validatorRows, buildPoolKeys, buildKeyPool]
  | line :: rest, pk0, kp0, pk, kp => by
      intro h
      rw [readValidatorsAux] at h
      cases hp : parseValidatorsLine line with
      | error e => rw [hp] at h; cases h
      | ok row =>
          obtain ⟨entity, keyStr, valKey⟩ := row
          rw [hp] at h
          have hrows : validatorRows (line :: rest)
              = (entity, keyStr, valKey) :: validatorRows rest := by
            simp [validatorRows, List.filterMap_cons, hp, Except.toOption]
          rw [hrows]
          have := readValidatorsAux_build rest
            (addKeyToPool pk0 entity valKey) (setKeyPool kp0 keyStr entity)
            pk kp h
          simpa [buildPoolKeys, buildKeyPool] using this

theorem lookup_setKeyPool (m : List (String × String)) (keyStr entity q : String) :
    (setKeyPool m keyStr entity).lookup q
      = if q = keyStr then some entity else m.lookup q := by
  induction m with
  | nil =>
      by_cases h : q = keyStr
      · subst h; simp [setKeyPool, List.lookup]
      · simp [setKeyPool, List.lookup, h, beq_eq_false_iff_ne.mpr h]
  | cons kv rest ih =>
      obtain ⟨s, e⟩ := kv
      by_cases hs : s = keyStr
      · subst hs
        by_cases hq : q = s
        · subst hq; simp [setKeyPool, List.lookup]
        · simp [setKeyPool, List.lookup, hq, beq_eq_false_iff_ne.mpr hq]
      · by_cases hq : q = s
        · subst hq
          simp [setKeyPool, List.lookup, hs]
        · simp [setKeyPool, List.lookup, hs, hq,
            beq_eq_false_iff_ne.mpr hq, ih]

theorem lookup_buildKeyPool_of_not_mem
    (rows : List (String × String × List Nat)) (s : String) :
    ∀ (kp0 : List (String × String)), (∀ r ∈ rows, r.2.1 ≠ s) →
      (buildKeyPool kp0 rows).lookup s = kp0.lookup s := by
  induction rows with
  | nil => intro kp0 _; rfl
  | cons r rest ih =>
      intro kp0 h
      have hr : r.2.1 ≠ s := h r (List.mem_cons_self r rest)
      have := ih (setKeyPool kp0 r.2.1 r.1)
        (fun r' hr' => h r' (List.mem_cons_of_mem _ hr'))
      rw [buildKeyPool] at this ⊢
      simp only [List.foldl_cons] at this ⊢
      rw [this, lookup_setKeyPool, if_neg (fun hc => hr hc.symm)]

theorem lookup_buildKeyPool_unique
    (e s : String) (K : List Nat) :
    ∀ (rows : List (String × String × List Nat))
      (kp0 : List (String × String)), (e, s, K) ∈ rows →
      (rows.map (fun r => r.2.1)).Nodup →
      (buildKeyPool kp0 rows).lookup s = some e := by
  intro rows
  induction rows with
  | nil => intro kp0 hmem; cases hmem
  | cons r rest ih =>
      intro kp0 hmem hnd
      rw [List.map_cons, List.nodup_cons] at hnd
      rcases List.mem_cons.mp hmem with hmem | hmem
      · subst hmem
        have hnot : ∀ r' ∈ rest, r'.2.1 ≠ (e, s, K).2.1 := by
          intro r' hr' hc
          exact hnd.1 (hc ▸ List.mem_map_of_mem (fun r => r.2.1) hr')
        rw [buildKeyPool, List.foldl_cons]
        rw [show (rest.foldl (fun m r => setKeyPool m r.2.1 r.1)
            (setKeyPool kp0 (e, s, K).2.1 (e, s, K).1)) =
          buildKeyPool (setKeyPool kp0 (e, s, K).2.1 (e, s, K).1) rest from rfl]
        rw [lookup_buildKeyPool_of_not_mem rest s _ hnot, lookup_setKeyPool]
        simp
      · rw [buildKeyPool, List.foldl_cons]
        exact ih (setKeyPool kp0 r.2.1 r.1) hmem hnd.2

theorem poolKeysOf_addKeyToPool (m : List (String × List (List Nat)))
    (entity : String) (key : List Nat) (q : String) :
    poolKeysOf (addKeyToPool m entity key) q
      = poolKeysOf m q ++ (if q = entity then [key] else []) := by
  induction m with
  | nil =>
      by_cases h : q = entity
      · subst h; simp [addKeyToPool, poolKeysOf, List.lookup]
      · simp [addKeyToPool, poolKeysOf, List.lookup, h,
          beq_eq_false_iff_ne.mpr h]
  | cons kv rest ih =>
      obtain ⟨a, ks⟩ := kv
      by_cases ha : a = entity
      · subst ha
        by_cases hq : q = a
        · subst hq; simp [addKeyToPool, poolKeysOf, List.lookup]
        · simp [addKeyToPool, poolKeysOf, List.lookup, hq,
            beq_eq_false_iff_ne.mpr hq]
      · by_cases hq : q = a
        · subst hq
          simp [addKeyToPool, poolKeysOf, List.lookup, ha]
        · simp only [addKeyToPool, if_neg ha, poolKeysOf, List.lookup,
            beq_eq_false_iff_ne.mpr hq]
          exact ih

theorem poolKeysOf_buildPoolKeys (q : String) :
    ∀ (rows : List (String × String × List Nat))
      (pk0 : List (String × List (List Nat))),
      poolKeysOf (buildPoolKeys pk0 rows) q
        = poolKeysOf pk0 q
          ++ (rows.filter (fun r => r.1 == q)).map (fun r => r.2.2) := by
  intro rows
  induction rows with
  | nil => intro pk0; simp [buildPoolKeys]
  | cons r rest ih =>
      intro pk0
      rw [buildPoolKeys, List.foldl_cons]
      rw [show (rest.foldl (fun m r => addKeyToPool m r.1 r.2.2)
          (addKeyToPool pk0 r.1 r.2.2)) =
        buildPoolKeys (addKeyToPool pk0 r.1 r.2.2) rest from rfl]
      rw [ih (addKeyToPool pk0 r.1 r.2.2), poolKeysOf_addKeyToPool]
      by_cases h : r.1 = q
      · rw [List.filter_cons_of_pos (by simp [h]), if_pos h.symm]
        simp
      · rw [List.filter_cons_of_neg (by simp [h]), if_neg (fun hc => h hc.symm)]
        simp

theorem parseCont_decode (entityChars keyChars : List Char)
    (e s : String) (K : List Nat)
    (h : (if keyChars.length ≠ 98 then
        (Except.error "length of key is incorrect" :
          Except String (String × String × List Nat))
      else
        match hexutilDecode keyChars with
        | none => .error ("could not decode key: " ++ String.mk keyChars)
        | some valKey => .ok (String.mk entityChars, String.mk keyChars, valKey))
      = .ok (e, s, K)) :
    hexutilDecode s.toList = some K := by
  split at h
  · cases h
  · split at h
    · cases h
    next valKey hdec =>
      cases h
      exact hdec

theorem parseValidatorsLine_decode (line : String) (e s : String) (K : List Nat)
    (h : parseValidatorsLine line = .ok (e, s, K)) :
    hexutilDecode s.toList = some K := by
  rw [parseValidatorsLine] at h
  split at h
  · split at h
    · exact parseCont_decode _ _ e s K h
    · exact parseCont_decode _ _ e s K h
  · cases h

theorem validatorRows_decode (lines : List String) :
    ∀ r ∈ validatorRows lines, hexutilDecode r.2.1.toList = some r.2.2 := by
  intro r hr
  rw [validatorRows, List.mem_filterMap] at hr
  obtain ⟨line, _, hline⟩ := hr
  obtain ⟨e, s, K⟩ := r
  cases hp : parseValidatorsLine line with
  | error err => rw [hp] at hline; cases hline
  | ok row =>
      rw [hp] at hline
      cases hline
      exact parseValidatorsLine_decode line e s K hp

/-! ## Claim C9 — inverse pool mappings -/

/-- A 98-character key (`0x` then 96 `a`s) used twice in the
counterexample file. -/
def dupKeyChars : List Char := '0' :: 'x' :: List.replicate 96 'a'

/-- The normalized key string of `dupKeyChars`. -/
def dupKeyStr : String := String.mk dupKeyChars

/-- Its decoded 48 bytes (each `0xaa = 170`). -/
def dupKeyBytes : List Nat := List.replicate 48 170

/-- A validators file listing the SAME pubkey under pools `a` and `b`. -/
def dupLines : List String :=
  [String.mk ('a' :: ',' :: dupKeyChars), String.mk ('b' :: ',' :: dupKeyChars)]

/-- **C9, counterexample.**  `ReadValidatorsFile` accepts a file listing
one pubkey under two pools; the pubkey then occurs in BOTH pools' key
lists while the pubkey-to-pool map sends it only to the last one (`b`):
the two mappings are not mutually inverse and the pubkey belongs to two
pools' key lists. -/
theorem readValidatorsFile_not_inverse :
    ReadValidatorsFile dupLines
      = .ok ([("a", [dupKeyBytes]), ("b", [dupKeyBytes])], [(dupKeyStr, "b")]) ∧
    dupKeyBytes ∈ poolKeysOf [("a", [dupKeyBytes]), ("b", [dupKeyBytes])] "a" ∧
    ([(dupKeyStr, "b")] : List (String × String)).lookup dupKeyStr = some "b" ∧
    ("b" : String) ≠ "a" := by
  refine ⟨rfl, List.mem_singleton.mpr rfl, rfl, by decide⟩

/-- **C9, amended.**  For every accepted validators CSV file whose rows
decode to pairwise-distinct pubkeys, the two returned mappings are
mutually inverse: each parsed row's pubkey is sent by the pubkey-to-pool
map (under its normalized key string) to the row's pool, and it occurs
in a pool's key list exactly for that pool; each pool's key list is
duplicate-free, so the occurrence is unique.  (Without the
distinctness precondition a pubkey listed under two pools occurs in both
key lists while the map keeps only the last row's pool, as the
counterexample shows.) -/
theorem readValidatorsFile_inverse (lines : List String)
    (pk : List (String × List (List Nat))) (kp : List (String × String))
    (h : ReadValidatorsFile lines = .ok (pk, kp))
    (hnd : ((validatorRows lines).map (fun r => r.2.2)).Nodup) :
    ∀ entity keyStr valKey,
      (entity, keyStr, valKey) ∈ validatorRows lines →
      kp.lookup keyStr = some entity ∧
      (∀ p, valKey ∈ poolKeysOf pk p ↔ p = entity) ∧
      (poolKeysOf pk entity).Nodup := by
  obtain ⟨hpk, hkp⟩ := readValidatorsAux_build lines [] [] pk kp h
  have hdec := validatorRows_decode lines
  have hinj := List.inj_on_of_nodup_map hnd
  have hnd' : (validatorRows lines).Pairwise (fun a b => a.2.2 ≠ b.2.2) :=
    List.pairwise_map.mp hnd
  have hndkey : ((validatorRows lines).map (fun r => r.2.1)).Nodup := by
    refine List.pairwise_map.mpr (hnd'.imp_of_mem ?_)
    intro a b ha hb hne hc
    apply hne
    have hda := hdec a ha
    have hdb := hdec b hb
    rw [hc, hdb] at hda
    exact (Option.some.inj hda).symm
  intro entity keyStr valKey hmem
  have hbmem : valKey ∈ (validatorRows lines).map (fun r => r.2.2) :=
    List.mem_map_of_mem (fun r => r.2.2) hmem
  refine ⟨?_, ?_, ?_⟩
  · rw [hkp]
    exact lookup_buildKeyPool_unique entity keyStr valKey
      (validatorRows lines) [] hmem hndkey
  · intro p
    rw [hpk, poolKeysOf_buildPoolKeys]
    simp only [poolKeysOf, List.lookup, Option.getD_none, List.nil_append]
    constructor
    · intro hk
      rw [List.mem_map] at hk
      obtain ⟨r, hrmem, hrK⟩ := hk
      rw [List.mem_filter] at hrmem
      obtain ⟨hrrows, hrp⟩ := hrmem
      have hre : r = (entity, keyStr, valKey) := hinj hrrows hmem hrK
      have : r.1 = p := by simpa using hrp
      rw [hre] at this
      exact this.symm
    · intro hpe
      rw [hpe]
      exact List.mem_map.mpr ⟨(entity, keyStr, valKey),
        List.mem_filter.mpr ⟨hmem, by simp⟩, rfl⟩
  · rw [hpk, poolKeysOf_buildPoolKeys]
    simp only [poolKeysOf, List.lookup, Option.getD_none, List.nil_append]
    have hsub : (((validatorRows lines).filter
          (fun r => r.1 == entity)).map (fun r => r.2.2)).Sublist
        ((validatorRows lines).map (fun r => r.2.2)) :=
      (List.filter_sublist (validatorRows lines)).map _
    exact hnd.sublist hsub

/-- A well-formed two-pool validators file for the C9 witness: pool `a`
holds key `0x` + 96×`a`, pool `b` holds key `0x` + 96×`b`. -/
def distinctLines : List String :=
  [String.mk ('a' :: ',' :: '0' :: 'x' :: List.replicate 96 'a'),
   String.mk ('b' :: ',' :: '0' :: 'x' :: List.replicate 96 'b')]

/-- Witness for the amended C9 theorem on a file with two distinct keys. -/
theorem readValidatorsFile_inverse_witness :
    (([(String.mk ('0' :: 'x' :: List.replicate 96 'a'), "a"),
       (String.mk ('0' :: 'x' :: List.replicate 96 'b'), "b")] :
        List (String × String)).lookup
      (String.mk ('0' :: 'x' :: List.replicate 96 'a')) = some "a") ∧
    (∀ p, List.replicate 48 170 ∈ poolKeysOf
        [("a", [List.replicate 48 170]), ("b", [List.replicate 48 187])] p ↔
      p = "a") ∧
    (poolKeysOf [("a", [List.replicate 48 170]), ("b", [List.replicate 48 187])]
      "a").Nodup :=
  readValidatorsFile_inverse distinctLines
    [("a", [List.replicate 48 170]), ("b", [List.replicate 48 187])]
    [(String.mk ('0' :: 'x' :: List.replicate 96 'a'), "a"),
     (String.mk ('0' :: 'x' :: List.replicate 96 'b'), "b")]
    rfl (by decide) "a" (String.mk ('0' :: 'x' :: List.replicate 96 'a'))
    (List.replicate 48 170) (by decide)

end EthMetrics
